import Mathlib

/-!
# Derbyshire Dales bin-collection adapter (`src/src/adapter.js`)

A shallow embedding of the council-scraping adapter and the properties of its
cache, date normaliser, HTML parser and fallback ladder.

Conventions of the embedding.

* A JavaScript string is a `List Char` (`Str`); literals are written
  `"...".toList`.
* A regular expression is embedded as the matcher it denotes.  Each quantifier
  of `rowPattern`, `monthPattern` and `slashPattern` is greedy and is followed
  by a pattern element that cannot match any character the quantifier ranges
  over (or, for a bounded digit run, that cannot match a digit), so giving
  characters back never lets a failed match succeed; the matchers therefore
  take the greedy run and do not backtrack.  The one exception, `[^>]*` in
  the pattern of `extractField`, is embedded with its backtracking.
* A character outside the Basic Multilingual Plane is one `Char` here and two
  code units in JavaScript.  No operation of the source tells the two apart:
  every class test and every literal is about ASCII characters or about
  whitespace of the Basic Multilingual Plane, and `length` is only taken of
  digit runs and of arrays.
* `console.log` and `console.error` are not modelled.
* The process-wide `Map`, the clock and the remote services are explicit: a
  `World` is threaded through the operations and an `Env` supplies what the
  runtime and the network answer.
-/

namespace BinCollection

/-! ## Characters and strings -/

/-- A JavaScript string, as the list of its characters. -/
abbrev Str := List Char

/-- The class `\d`: the ten ASCII digits. -/
def isDigit (c : Char) : Bool :=
  decide (48 ≤ c.toNat) && decide (c.toNat ≤ 57)

/-- The class `\w` (also under the `i` flag, without the `u` flag):
`[A-Za-z0-9_]`. -/
def isWord (c : Char) : Bool :=
  (decide (48 ≤ c.toNat) && decide (c.toNat ≤ 57))
    || (decide (65 ≤ c.toNat) && decide (c.toNat ≤ 90))
    || (decide (97 ≤ c.toNat) && decide (c.toNat ≤ 122))
    || decide (c.toNat = 95)

/-- The class `\s`, which is also what `String.prototype.trim` strips:
ECMAScript WhiteSpace and LineTerminator code points. -/
def isSpace (c : Char) : Bool :=
  decide (c.toNat = 9) || decide (c.toNat = 10) || decide (c.toNat = 11)
    || decide (c.toNat = 12) || decide (c.toNat = 13) || decide (c.toNat = 32)
    || decide (c.toNat = 160) || decide (c.toNat = 5760)
    || (decide (8192 ≤ c.toNat) && decide (c.toNat ≤ 8202))
    || decide (c.toNat = 8232) || decide (c.toNat = 8233) || decide (c.toNat = 8239)
    || decide (c.toNat = 8287) || decide (c.toNat = 12288) || decide (c.toNat = 65279)

/-- Lower-casing of one character, `A`..`Z` to `a`..`z`, every other character
unchanged.  `toLowerCase` is applied by the source to a `\w+` capture (ASCII
only) and to the waste-type text before `includes` of an ASCII keyword; the
only non-ASCII characters whose JavaScript lower-casing contains an ASCII
letter are U+0130 (to `i` followed by U+0307) and U+212A (to `k`), and neither
can complete one of the five keywords, so the ASCII mapping decides the same
`includes` tests. -/
def lowerChar (c : Char) : Char :=
  if 65 ≤ c.toNat ∧ c.toNat ≤ 90 then Char.ofNat (c.toNat + 32) else c

/-- `String.prototype.toLowerCase`, see `lowerChar`. -/
def toLowerCase (s : Str) : Str := s.map lowerChar

/-- `String.prototype.trim`. -/
def trim (s : Str) : Str :=
  ((s.dropWhile isSpace).reverse.dropWhile isSpace).reverse

/-- Helper of `collapseSpaces`: the flag says that the previous character was
part of a whitespace run that has already been replaced. -/
def collapseSpacesAux : Bool → Str → Str
  | _, [] => []
  | inRun, c :: cs =>
    if isSpace c then
      (if inRun then collapseSpacesAux true cs else ' ' :: collapseSpacesAux true cs)
    else c :: collapseSpacesAux false cs

/-- `s.replace(/\s+/g, ' ')`: every maximal whitespace run becomes one space. -/
def collapseSpaces (s : Str) : Str := collapseSpacesAux false s

/-- `s.replace(/\s+/g, '')`: every whitespace character is removed. -/
def removeSpaces (s : Str) : Str := s.filter (fun c => !isSpace c)

/-- `s.padStart(2, '0')`. -/
def padStart2 (s : Str) : Str :=
  List.replicate (2 - s.length) '0' ++ s

/-- `hay.includes(needle)`. -/
def includes : Str → Str → Bool
  | [], needle => needle.isEmpty
  | c :: cs, needle => needle.isPrefixOf (c :: cs) || includes cs needle

/-- `s.split(',')`. -/
def splitComma : Str → List Str
  | [] => [[]]
  | c :: cs =>
    match splitComma cs with
    | [] => if c = ',' then [[], []] else [[c]]
    | p :: ps => if c = ',' then [] :: p :: ps else (c :: p) :: ps

/-! ## Regular-expression building blocks -/

/-- A literal pattern text under the `i` flag, matched at the start of the
input: the remaining input on success.  Without the `u` flag only the ASCII
letters have a case variant that matches. -/
def matchLiteral : Str → Str → Option Str
  | [], s => some s
  | _ :: _, [] => none
  | p :: ps, c :: cs => if lowerChar c = lowerChar p then matchLiteral ps cs else none

/-- A greedy `C+` for a character class `C`: the run and the remaining input. -/
def many1 (cls : Char → Bool) (s : Str) : Option (Str × Str) :=
  if s.takeWhile cls = [] then none else some (s.takeWhile cls, s.dropWhile cls)

/-- A greedy bounded digit run `\d{lo,hi}`: the run and the remaining input. -/
def digitsRange (lo hi : Nat) (s : Str) : Option (Str × Str) :=
  let ds := (s.takeWhile isDigit).take hi
  if lo ≤ ds.length then some (ds, s.drop ds.length) else none

/-- The optional comma `,?`: the text consumed and the remaining input. -/
def optComma : Str → Str × Str
  | ',' :: rest => ([','], rest)
  | s => ([], s)

/-- The separator class `[\/\-]`. -/
def sepChar : Str → Option (Char × Str)
  | c :: rest => if c = '/' ∨ c = '-' then some (c, rest) else none
  | [] => none

/-- An unanchored search: the match at the leftmost start position at which
the anchored matcher succeeds (`String.prototype.match` without the `g`
flag). -/
def searchFirst {α : Type} (m : Str → Option α) : Str → Option α
  | [] => m []
  | c :: cs =>
    match m (c :: cs) with
    | some r => some r
    | none => searchFirst m cs

/-! ## Date normaliser (`normalizeDate`, lines 212-257) -/

/-- The own properties of the `monthNames` object literal. -/
def monthNames : List (Str × Str) :=
  [ ("january".toList, "01".toList), ("february".toList, "02".toList),
    ("march".toList, "03".toList), ("april".toList, "04".toList),
    ("may".toList, "05".toList), ("june".toList, "06".toList),
    ("july".toList, "07".toList), ("august".toList, "08".toList),
    ("september".toList, "09".toList), ("october".toList, "10".toList),
    ("november".toList, "11".toList), ("december".toList, "12".toList),
    ("jan".toList, "01".toList), ("feb".toList, "02".toList),
    ("mar".toList, "03".toList), ("apr".toList, "04".toList),
    ("jun".toList, "06".toList), ("jul".toList, "07".toList),
    ("aug".toList, "08".toList), ("sep".toList, "09".toList),
    ("oct".toList, "10".toList), ("nov".toList, "11".toList),
    ("dec".toList, "12".toList) ]

/-- Lookup of a key among the own properties of an object literal. -/
def ownProperty : List (Str × Str) → Str → Option Str
  | [], _ => none
  | (k, v) :: rest, key => if k = key then some v else ownProperty rest key

/-- The expression `monthNames[monthName]` followed by the truthiness test
`if (month)` and the interpolation of `month` into the template literal: the
text that is interpolated, or `none` when the value is `undefined`.

`monthNames` is a plain object literal, so a key that is not an own property
is looked up on `Object.prototype`.  The key is a lower-cased `\w+` capture,
and the only properties of `Object.prototype` with such a name are
`constructor` (the function `Object`) and `__proto__` (the prototype object);
both are truthy and are interpolated through `String(...)`. -/
def monthLookup (monthName : Str) : Option Str :=
  match ownProperty monthNames monthName with
  | some month => some month
  | none =>
    if monthName = "constructor".toList then
      some "function Object() \x7b [native code] \x7d".toList
    else if monthName = "__proto__".toList then
      some "[object Object]".toList
    else none

/-- The pattern `/(\d{1,2})\s+(\w+),?\s+(\d{4})/i` anchored at the start of the
input: the captures (day, month name, year). -/
def monthPatternAt (s : Str) : Option (Str × Str × Str) :=
  match digitsRange 1 2 s with
  | none => none
  | some (day, r1) =>
    match many1 isSpace r1 with
    | none => none
    | some (_, r2) =>
      match many1 isWord r2 with
      | none => none
      | some (name, r3) =>
        match many1 isSpace (optComma r3).2 with
        | none => none
        | some (_, r4) =>
          match digitsRange 4 4 r4 with
          | none => none
          | some (year, _) => some (day, name, year)

/-- The pattern `/(\d{1,2})[\/\-](\d{1,2})[\/\-](\d{2,4})/` anchored at the
start of the input: the captures (day, month, year). -/
def slashPatternAt (s : Str) : Option (Str × Str × Str) :=
  match digitsRange 1 2 s with
  | none => none
  | some (day, r1) =>
    match sepChar r1 with
    | none => none
    | some (_, r2) =>
      match digitsRange 1 2 r2 with
      | none => none
      | some (month, r3) =>
        match sepChar r3 with
        | none => none
        | some (_, r4) =>
          match digitsRange 2 4 r4 with
          | none => none
          | some (year, _) => some (day, month, year)

/-- The second half of `normalizeDate` (lines 241-250): the numeric shape. -/
def normalizeSlash (cleaned : Str) : Option Str :=
  match searchFirst slashPatternAt cleaned with
  | some (d, m, y) =>
    let day := padStart2 d
    let month := padStart2 m
    let year := if y.length = 2 then "20".toList ++ y else y
    some (year ++ '-' :: month ++ '-' :: day)
  | none => none

/-- The function `normalizeDate(dateStr)`; `none` is `null`.  No statement of
the `try` block can throw on a string, so the `catch` is never entered. -/
def normalizeDate (dateStr : Str) : Option Str :=
  let cleaned := trim (collapseSpaces dateStr)
  match searchFirst monthPatternAt cleaned with
  | some (d, name, year) =>
    let day := padStart2 d
    let monthName := toLowerCase name
    match monthLookup monthName with
    | some month => some (year ++ '-' :: month ++ '-' :: day)
    | none => normalizeSlash cleaned
  | none => normalizeSlash cleaned

/-! ## HTML collection parser (`parseCollectionDates`, lines 170-209) -/

/-- The five values the variable `type` of the source can hold: the strings
`'Refuse'`, `'Recycling'`, `'Garden'`, `'Food'` and `'Other'`. -/
inductive BinType
  | Refuse
  | Recycling
  | Garden
  | Food
  | Other
  deriving DecidableEq

/-- An element of `collections`: the object with the fields `type` and `date`. -/
structure CollectionEntry where
  type : BinType
  date : Str
  deriving DecidableEq

/-- The literal text that opens `rowPattern`. -/
def rowOpenText : Str := "<div class=\"col-sm-5\"><strong>".toList

/-- The literal text `<\/strong>` of `rowPattern`. -/
def strongCloseText : Str := "</strong>".toList

/-- The literal text between the two captures of `rowPattern`. -/
def rowMiddleText : Str := "</div><div class=\"col-sm-6\"><strong>".toList

/-- The first capture of `rowPattern`, `(\d{1,2}\s+\w+,?\s+\d{4})`, anchored at
the start of the input: the captured text and the input after it. -/
def dateTextAt (s : Str) : Option (Str × Str) :=
  (digitsRange 1 2 s).bind fun day =>
  (many1 isSpace day.2).bind fun ws1 =>
  (many1 isWord ws1.2).bind fun name =>
  (many1 isSpace (optComma name.2).2).bind fun ws2 =>
  (digitsRange 4 4 ws2.2).bind fun year =>
  some (day.1 ++ ws1.1 ++ name.1 ++ (optComma name.2).1 ++ ws2.1 ++ year.1, year.2)

/-- The pattern `rowPattern` (line 175) anchored at the start of the input:
the captures `match[1]` and `match[2]` and the input after the match. -/
def rowPatternAt (s : Str) : Option (Str × Str × Str) :=
  (matchLiteral rowOpenText s).bind fun r1 =>
  (many1 isWord r1).bind fun weekday =>
  (matchLiteral strongCloseText weekday.2).bind fun r2 =>
  (many1 isSpace r2).bind fun ws =>
  (dateTextAt ws.2).bind fun dateText =>
  (matchLiteral rowMiddleText dateText.2).bind fun r3 =>
  (many1 (fun c => decide (c ≠ '<')) r3).bind fun binText =>
  (matchLiteral strongCloseText binText.2).bind fun r4 =>
  some (dateText.1, binText.1, r4)

/-- The successive results of `rowPattern.exec(html)` under the `g` flag: the
search resumes at `lastIndex`, the end of the previous match.  The first
argument counts the characters still to be skipped because they lie inside the
previous match. -/
def rowMatches : Nat → Str → List (Str × Str)
  | _, [] => []
  | skip + 1, _ :: cs => rowMatches skip cs
  | 0, c :: cs =>
    match rowPatternAt (c :: cs) with
    | some (dateText, binText, rest) =>
      (dateText, binText) :: rowMatches ((c :: cs).length - rest.length - 1) cs
    | none => rowMatches 0 cs

/-- The classification of lines 183-192, on the trimmed waste-type text. -/
def classify (binType : Str) : BinType :=
  if includes (toLowerCase binType) "domestic".toList
      || includes (toLowerCase binType) "refuse".toList then BinType.Refuse
  else if includes (toLowerCase binType) "recycling".toList then BinType.Recycling
  else if includes (toLowerCase binType) "garden".toList then BinType.Garden
  else if includes (toLowerCase binType) "food".toList then BinType.Food
  else BinType.Other

/-- The body of the `while` loop (lines 179-202) for one match.  A result of
`normalizeDate` always contains a `-`, so `if (date)` tests for non-null. -/
def addRow (collections : List CollectionEntry) (m : Str × Str) : List CollectionEntry :=
  let dateStr := trim m.1
  let binType := trim m.2
  let type := classify binType
  match normalizeDate dateStr with
  | some date =>
    match collections.find? (fun c => decide (c.date = date) && decide (c.type = type)) with
    | some _ => collections
    | none => collections ++ [CollectionEntry.mk type date]
  | none => collections

/-- The call `collections.sort((a, b) => a.date.localeCompare(b.date))`.
`Array.prototype.sort` is stable, and `localeCompare` is a total preorder, so
the result is that of any stable sort; the comparator is supplied by the
runtime (ICU collation) and is a parameter. -/
def sortByDate (localeCompare : Str → Str → Int) (collections : List CollectionEntry) :
    List CollectionEntry :=
  collections.insertionSort (fun a b => localeCompare a.date b.date ≤ 0)

/-- The function `parseCollectionDates(html)`. -/
def parseCollectionDates (localeCompare : Str → Str → Int) (html : Str) :
    List CollectionEntry :=
  sortByDate localeCompare ((rowMatches 0 html).foldl addRow [])

/-- Code-point lexicographic comparison, the value of `localeCompare` on
strings made of digits and `-`. -/
def codePointCompare (a b : Str) : Int :=
  if a < b then -1 else if a = b then 0 else 1

/-! ## Cache (lines 7-23) -/

/-- The constant `COLLECTION_CACHE_TTL`, 24 hours in milliseconds. -/
def COLLECTION_CACHE_TTL : Int := 24 * 60 * 60 * 1000

/-- The constant `ADDRESS_CACHE_TTL`, 7 days in milliseconds. -/
def ADDRESS_CACHE_TTL : Int := 7 * 24 * 60 * 60 * 1000

/-- A value of the `Map`: the object with the fields `data` and `timestamp`. -/
structure CacheEntry (α : Type) where
  data : α
  timestamp : Int
  deriving DecidableEq

/-- A JavaScript `Map` with string keys: its entries in insertion order. -/
abbrev CacheMap (α : Type) := List (Str × CacheEntry α)

/-- The call `cache.get(key)`; `none` is `undefined`. -/
def mapGet {α : Type} : CacheMap α → Str → Option (CacheEntry α)
  | [], _ => none
  | (k, e) :: rest, key => if k = key then some e else mapGet rest key

/-- The call `cache.delete(key)`. -/
def mapDelete {α : Type} (cache : CacheMap α) (key : Str) : CacheMap α :=
  cache.filter (fun p => decide (p.1 ≠ key))

/-- The call `cache.set(key, entry)`: an existing key keeps its place in the
insertion order, a new key goes last. -/
def mapSet {α : Type} : CacheMap α → Str → CacheEntry α → CacheMap α
  | [], key, entry => [(key, entry)]
  | (k, e) :: rest, key, entry =>
    if k = key then (key, entry) :: rest else (k, e) :: mapSet rest key entry

/-- The function `getCached(key, ttl)` on an explicit cache: the value returned
(`none` is `null`) and the cache afterwards.  `now` is what `Date.now()`
answers; it is read only when the key is present. -/
def getCached {α : Type} (cache : CacheMap α) (key : Str) (ttl : Int) (now : Int) :
    Option α × CacheMap α :=
  match mapGet cache key with
  | some cached =>
    if now - cached.timestamp < ttl then (some cached.data, cache)
    else (none, mapDelete cache key)
  | none => (none, mapDelete cache key)

/-- The function `setCache(key, data)` on an explicit cache; `now` is what
`Date.now()` answers. -/
def setCache {α : Type} (cache : CacheMap α) (key : Str) (data : α) (now : Int) :
    CacheMap α :=
  mapSet cache key (CacheEntry.mk data now)

/-! ## The world and its environment -/

/-- An element of the address list: the object with the fields `uprn`,
`uprnWithPrefix` and `address`. -/
structure Address where
  uprn : Str
  uprnWithPrefix : Str
  address : Str
  deriving DecidableEq

/-- What the address-lookup endpoint answers to one POST. -/
inductive AddressReply
  /-- The call `fetch` raised (time-out, network fault). -/
  | failed
  /-- A response with its HTTP status and `Object.entries(await resp.json())`,
  `none` when parsing the body or taking its entries raises.  The values of
  the mapping are address texts. -/
  | response (status : Nat) (entries : Option (List (Str × Str)))

/-- What the form page answers to one GET. -/
inductive FormReply
  /-- The request, or the reading of its body, raised. -/
  | failed
  /-- A response with its HTTP status, its body text and its `set-cookie`
  headers (`none` is `undefined`). -/
  | response (status : Nat) (text : Str) (cookies : Option (List Str))

/-- The form submission of lines 123-145: the fields of the body that vary and
the `Cookie` header.  The fields `Trigger`, `TriggerCtl` and `FF2924lbltxt`
are constants. -/
structure SubmitRequest where
  requestVerificationToken : Str
  formGuid : Str
  objectTemplateID : Str
  currentSectionID : Str
  ff2924 : Str
  ff2924Text : Str
  cookie : Str
  deriving DecidableEq

/-- What the form endpoint answers to one submission. -/
inductive SubmitReply
  /-- The request, or the reading of its body, raised. -/
  | failed
  /-- A response with its HTTP status and its body text. -/
  | response (status : Nat) (text : Str)

/-- Everything the adapter obtains from outside: the clock, two library
functions whose result depends on the Unicode tables of the runtime, and the
remote services.  The replies are indexed by the number of earlier calls to
the same endpoint, so a service may answer every call differently. -/
structure Env where
  /-- The value of the n-th evaluation of `Date.now()`. -/
  now : Nat → Int
  /-- The method `String.prototype.toUpperCase`. -/
  toUpperCase : Str → Str
  /-- The method `String.prototype.localeCompare`. -/
  localeCompare : Str → Str → Int
  /-- The address-lookup endpoint, given the `query` field. -/
  addressLookup : Nat → Str → AddressReply
  /-- The form page. -/
  formPage : Nat → FormReply
  /-- The form submission endpoint. -/
  submit : Nat → SubmitRequest → SubmitReply

/-- The mutable state of the process and the counters of what it has asked of
the outside.  The single `Map` of the source is kept as its two disjoint
parts: the entries under the keys `addresses_...`, which hold address lists,
and the entries under the keys `collections_...`, which hold collection lists.
A key of one kind never equals a key of the other, and the only place that
looks at the order of the keys (line 113) keeps the `addresses_` keys only. -/
structure World where
  addressCache : CacheMap (List Address)
  collectionCache : CacheMap (List CollectionEntry)
  clockReads : Nat
  addressLookupCalls : Nat
  formPageCalls : Nat
  submitCalls : Nat
  deriving DecidableEq

/-- The test `resp.ok`: a status from 200 to 299. -/
def httpOk (status : Nat) : Bool := decide (200 ≤ status) && decide (status ≤ 299)

/-- The number of clock reads after `getCached` on `cache`: one more when the
key is present. -/
def readsAfterGet {α : Type} (cache : CacheMap α) (key : Str) (reads : Nat) : Nat :=
  if (mapGet cache key).isSome then reads + 1 else reads

/-! ## Address resolver (`getAddressesFromCouncil`, lines 26-74) -/

/-- The replacement `uprn.replace(/^U/, '')`. -/
def stripU : Str → Str
  | 'U' :: rest => rest
  | s => s

/-- The arrow function of line 57. -/
def toAddress (p : Str × Str) : Address :=
  Address.mk (stripU p.1) p.1 p.2

/-- What the `try` block of `getAddressesFromCouncil` can throw. -/
inductive AddressError
  /-- An exception of `fetch` or of `resp.json()`. -/
  | thrown
  /-- The message `council_api_error_` followed by the status. -/
  | councilApiError (status : Nat)
  /-- The message `no_addresses_found`. -/
  | noAddressesFound
  deriving DecidableEq

/-- The `try` block of `getAddressesFromCouncil` (lines 31-68). -/
def addressLookupBody (E : Env) (postcode cacheKey : Str) (W : World) :
    Except AddressError (List Address) × World :=
  let W1 := { W with addressLookupCalls := W.addressLookupCalls + 1 }
  match E.addressLookup W.addressLookupCalls postcode with
  | AddressReply.failed => (Except.error AddressError.thrown, W1)
  | AddressReply.response status entries =>
    if httpOk status = false then (Except.error (AddressError.councilApiError status), W1)
    else
      match entries with
      | none => (Except.error AddressError.thrown, W1)
      | some data =>
        if (data.map toAddress).length = 0 then
          (Except.error AddressError.noAddressesFound, W1)
        else
          (Except.ok (data.map toAddress),
            { W1 with
              addressCache :=
                setCache W1.addressCache cacheKey (data.map toAddress) (E.now W1.clockReads)
              clockReads := W1.clockReads + 1 })

/-- The text `addresses_` followed by the postcode without whitespace in upper
case. -/
def addressCacheKey (E : Env) (postcode : Str) : Str :=
  "addresses_".toList ++ E.toUpperCase (removeSpaces postcode)

/-- The function `getAddressesFromCouncil(postcode)`; `none` is `null`.  The
`catch` block logs the message of the error and returns `null`. -/
def getAddressesFromCouncil (E : Env) (postcode : Str) (W : World) :
    Option (List Address) × World :=
  let cached :=
    getCached W.addressCache (addressCacheKey E postcode) ADDRESS_CACHE_TTL (E.now W.clockReads)
  let W1 := { W with
    addressCache := cached.2
    clockReads := readsAfterGet W.addressCache (addressCacheKey E postcode) W.clockReads }
  match cached.1 with
  | some addresses => (some addresses, W1)
  | none =>
    match (addressLookupBody E postcode (addressCacheKey E postcode) W1).1 with
    | Except.ok addresses =>
      (some addresses, (addressLookupBody E postcode (addressCacheKey E postcode) W1).2)
    | Except.error _ =>
      (none, (addressLookupBody E postcode (addressCacheKey E postcode) W1).2)

/-! ## Collection fetcher (`getCollectionsFromCouncil`, lines 77-165) -/

/-- The text `value="` of the pattern of `extractField`. -/
def valueOpenText : Str := "value=\"".toList

/-- The tail `value="([^"]*)"` of the pattern of `extractField`, anchored at
the start of the input: the capture. -/
def valueAt (s : Str) : Option Str :=
  match matchLiteral valueOpenText s with
  | some r =>
    match r.dropWhile (fun c => decide (c ≠ '"')) with
    | '"' :: _ => some (r.takeWhile (fun c => decide (c ≠ '"')))
    | _ => none
  | none => none

/-- The part `[^>]*value="([^"]*)"` with `[^>]*` consuming `k` characters, then
`k - 1`, down to none: the first capture that is found. -/
def valueAfterRun (s : Str) : Nat → Option Str
  | 0 => valueAt s
  | k + 1 =>
    match valueAt (s.drop (k + 1)) with
    | some v => some v
    | none => valueAfterRun s k

/-- The pattern of `extractField` for a field name, anchored at the start of
the input: the capture. -/
def fieldPatternAt (fieldName : Str) (s : Str) : Option Str :=
  match matchLiteral ("name=\"".toList ++ fieldName ++ "\"".toList) s with
  | some r => valueAfterRun r (r.takeWhile (fun c => decide (c ≠ '>'))).length
  | none => none

/-- The inner function `extractField(html, fieldName)` (lines 98-102). -/
def extractField (html fieldName : Str) : Str :=
  match searchFirst (fieldPatternAt fieldName) html with
  | some v => v
  | none => []

/-- The text `addresses_`. -/
def addressesKeyStart : Str := "addresses_".toList

/-- The array `addressCacheKeys` of line 113. -/
def addressCacheKeys (W : World) : List Str :=
  (W.addressCache.map (fun p => p.1)).filter (fun k => addressesKeyStart.isPrefixOf k)

/-- The value of `postcodeForForm` after lines 113-121. -/
def postcodeForForm (W : World) : Str :=
  match addressCacheKeys W with
  | [] => []
  | key :: _ =>
    match mapGet W.addressCache key with
    | none => []
    | some cached =>
      match cached.data with
      | [] => []
      | first :: _ => trim ((splitComma first.address).getLastD [])

/-- The value of the `Cookie` header, `cookies ? cookies.join('; ') : ''`. -/
def cookieHeader : Option (List Str) → Str
  | none => []
  | some cookies => List.intercalate "; ".toList cookies

/-- The form submission built by lines 104-145. -/
def submitRequest (W : World) (formHtml : Str) (cookies : Option (List Str))
    (uprnWithPrefix : Str) : SubmitRequest :=
  { requestVerificationToken := extractField formHtml "__RequestVerificationToken".toList
    formGuid := extractField formHtml "FormGuid".toList
    objectTemplateID := extractField formHtml "ObjectTemplateID".toList
    currentSectionID := extractField formHtml "CurrentSectionID".toList
    ff2924 := uprnWithPrefix
    ff2924Text := postcodeForForm W
    cookie := cookieHeader cookies }

/-- The `try` block of `getCollectionsFromCouncil` (lines 82-159); every
exception is caught by the `catch` block, which returns `null`, so the result
is already the value returned. -/
def fetchBody (E : Env) (uprnWithPrefix cacheKey : Str) (W : World) :
    Option (List CollectionEntry) × World :=
  let W1 := { W with formPageCalls := W.formPageCalls + 1 }
  match E.formPage W.formPageCalls with
  | FormReply.failed => (none, W1)
  | FormReply.response formStatus formHtml cookies =>
    if httpOk formStatus = false then (none, W1)
    else
      let W2 := { W1 with submitCalls := W1.submitCalls + 1 }
      match E.submit W1.submitCalls (submitRequest W1 formHtml cookies uprnWithPrefix) with
      | SubmitReply.failed => (none, W2)
      | SubmitReply.response submitStatus resultHtml =>
        if httpOk submitStatus = false then (none, W2)
        else if (parseCollectionDates E.localeCompare resultHtml).length > 0 then
          (some (parseCollectionDates E.localeCompare resultHtml),
            { W2 with
              collectionCache :=
                setCache W2.collectionCache cacheKey
                  (parseCollectionDates E.localeCompare resultHtml) (E.now W2.clockReads)
              clockReads := W2.clockReads + 1 })
        else (none, W2)

/-- The text `collections_` followed by the UPRN. -/
def collectionCacheKey (uprn : Str) : Str := "collections_".toList ++ uprn

/-- The function `getCollectionsFromCouncil(uprn, uprnWithPrefix)`; `none` is
`null`. -/
def getCollectionsFromCouncil (E : Env) (uprn uprnWithPrefix : Str) (W : World) :
    Option (List CollectionEntry) × World :=
  let cached :=
    getCached W.collectionCache (collectionCacheKey uprn) COLLECTION_CACHE_TTL
      (E.now W.clockReads)
  let W1 := { W with
    collectionCache := cached.2
    clockReads := readsAfterGet W.collectionCache (collectionCacheKey uprn) W.clockReads }
  match cached.1 with
  | some collections => (some collections, W1)
  | none => fetchBody E uprnWithPrefix (collectionCacheKey uprn) W1

/-! ## Adapter (`getCollectionsForPostcode`, lines 260-321) -/

/-- The object returned by `getCollectionsForPostcode`; a field that is absent
from the object is `none`. -/
structure CollectionsResult where
  postcode : Str
  address : Str
  uprn : Option Str
  collections : List CollectionEntry
  addressCount : Option Nat
  note : Str
  deriving DecidableEq

/-- The two-entry array literal of lines 299-302 and 314-317. -/
def mockCollections : List CollectionEntry :=
  [ CollectionEntry.mk BinType.Refuse "2026-02-20".toList,
    CollectionEntry.mk BinType.Recycling "2026-02-27".toList ]

/-- The template literal of line 289. -/
def liveNote (addressCount : Nat) : Str :=
  "Live data from Derbyshire Dales District Council. ".toList
    ++ (if addressCount > 1 then
          "(".toList ++ Nat.toDigits 10 addressCount
            ++ " addresses found - showing first)".toList
        else [])

/-- The template literal of line 304. -/
def addressOnlyNote : Str :=
  ("Address verified via council API. "
    ++ "Collection dates temporarily unavailable - showing mock data.").toList

/-- The template literal of line 318, for the message of the caught error. -/
def fallbackNote (message : Str) : Str :=
  "Unable to fetch data from council API. Error: ".toList ++ message
    ++ ". Please check the postcode and try again.".toList

/-- The message of the error raised at line 269. -/
def noAddressesMessage : Str := "No addresses found for this postcode".toList

/-- The `try` block of `getCollectionsForPostcode` (lines 263-305): the object
returned, or the message of the error thrown. -/
def lookupBody (E : Env) (normalizedPostcode : Str) (W : World) :
    Except Str CollectionsResult × World :=
  match (getAddressesFromCouncil E normalizedPostcode W).1 with
  | none => (Except.error noAddressesMessage, (getAddressesFromCouncil E normalizedPostcode W).2)
  | some [] =>
    (Except.error noAddressesMessage, (getAddressesFromCouncil E normalizedPostcode W).2)
  | some (firstAddress :: others) =>
    let fetched :=
      getCollectionsFromCouncil E firstAddress.uprn firstAddress.uprnWithPrefix
        (getAddressesFromCouncil E normalizedPostcode W).2
    match fetched.1 with
    | some (c :: cs) =>
      (Except.ok
        { postcode := normalizedPostcode
          address := firstAddress.address
          uprn := some firstAddress.uprn
          collections := c :: cs
          addressCount := some (firstAddress :: others).length
          note := liveNote (firstAddress :: others).length }, fetched.2)
    | _ =>
      (Except.ok
        { postcode := normalizedPostcode
          address := firstAddress.address
          uprn := some firstAddress.uprn
          collections := mockCollections
          addressCount := some (firstAddress :: others).length
          note := addressOnlyNote }, fetched.2)

/-- The postcode as normalised by line 261. -/
def normalizePostcode (E : Env) (postcode : Str) : Str :=
  E.toUpperCase (collapseSpaces (trim postcode))

/-- The function `getCollectionsForPostcode(postcode)`: the object returned and
the world afterwards.  The `catch` block (lines 307-320) turns every error of
the `try` block into the fallback object. -/
def getCollectionsForPostcode (E : Env) (postcode : Str) (W : World) :
    CollectionsResult × World :=
  match (lookupBody E (normalizePostcode E postcode) W).1 with
  | Except.ok result => (result, (lookupBody E (normalizePostcode E postcode) W).2)
  | Except.error message =>
    ({ postcode := normalizePostcode E postcode
       address := "Address lookup failed".toList
       uprn := none
       collections := mockCollections
       addressCount := none
       note := fallbackNote message }, (lookupBody E (normalizePostcode E postcode) W).2)

/-- The input does not start with a character of the class. -/
def StopsAt (cls : Char → Bool) (s : Str) : Prop :=
  ∀ c ∈ s.head?, cls c = false

/-- The canonical form `YYYY-MM-DD`: four digits, `-`, two digits, `-`, two
digits. -/
def isCanonicalDate : Str → Bool
  | [y1, y2, y3, y4, s1, m1, m2, s2, d1, d2] =>
    isDigit y1 && isDigit y2 && isDigit y3 && isDigit y4 && decide (s1 = '-')
      && isDigit m1 && isDigit m2 && decide (s2 = '-') && isDigit d1 && isDigit d2
  | _ => false

/-- The text of an optional comma: empty or one comma. -/
def commaText (comma : Bool) : Str := if comma then [','] else []

/-- The shape of a date text: day, whitespace, name, optional comma,
whitespace, year. -/
structure DateShape (d ws1 name ws2 y : Str) : Prop where
  day_digits : ∀ c ∈ d, isDigit c = true
  day_min : 1 ≤ d.length
  day_max : d.length ≤ 2
  ws1_ne : ws1 ≠ []
  ws1_spaces : ∀ c ∈ ws1, isSpace c = true
  name_ne : name ≠ []
  name_word : ∀ c ∈ name, isWord c = true
  ws2_ne : ws2 ≠ []
  ws2_spaces : ∀ c ∈ ws2, isSpace c = true
  year_digits : ∀ c ∈ y, isDigit c = true
  year_length : y.length = 4

/-- The shape of a numeric date text: day, separator, month, separator, year
of two to four digits. -/
structure SlashShape (d m y : Str) (s1 s2 : Char) : Prop where
  day_digits : ∀ c ∈ d, isDigit c = true
  day_min : 1 ≤ d.length
  day_max : d.length ≤ 2
  sep1 : s1 = '/' ∨ s1 = '-'
  month_digits : ∀ c ∈ m, isDigit c = true
  month_min : 1 ≤ m.length
  month_max : m.length ≤ 2
  sep2 : s2 = '/' ∨ s2 = '-'
  year_digits : ∀ c ∈ y, isDigit c = true
  year_min : 2 ≤ y.length
  year_max : y.length ≤ 4

/-- A date text of the first accepted shape: a day of one or two digits,
whitespace, a month name that the table holds in lower case, an optional
comma, whitespace, a year of four digits. -/
structure NamedDate (d ws1 name ws2 y month : Str) : Prop where
  day_digits : ∀ c ∈ d, isDigit c = true
  day_min : 1 ≤ d.length
  day_max : d.length ≤ 2
  ws1_ne : ws1 ≠ []
  ws1_spaces : ∀ c ∈ ws1, isSpace c = true
  name_month : ownProperty monthNames (toLowerCase name) = some month
  ws2_ne : ws2 ≠ []
  ws2_spaces : ∀ c ∈ ws2, isSpace c = true
  year_digits : ∀ c ∈ y, isDigit c = true
  year_length : y.length = 4

/-- Two structural fragments for the same date and category. -/
def twoFragmentsHtml : Str :=
  ("<div class=\"col-sm-5\"><strong>Tuesday</strong> 17 February, 2026</div>"
    ++ "<div class=\"col-sm-6\"><strong>Domestic Waste 140L Bin</strong></div>"
    ++ "<div class=\"col-sm-5\"><strong>Tuesday</strong> 17 Feb 2026</div>"
    ++ "<div class=\"col-sm-6\"><strong>Refuse sack</strong></div>").toList

/-- One row of the council page, in the format quoted at lines 168-169 of the
source. -/
def rowHtml (weekday dateText wasteText : Str) : Str :=
  rowOpenText ++ (weekday ++ (strongCloseText ++ ([' '] ++ (dateText
    ++ (rowMiddleText ++ (wasteText ++ (strongCloseText ++ "</div>".toList)))))))

/-- A council row whose month word is the name of an inherited property. -/
def inheritedMonthHtml : Str :=
  rowHtml "Tuesday".toList "17 constructor 2026".toList "Refuse".toList

/-- The text that `String(...)` gives for the two inherited properties. -/
def inheritedTexts : List Str :=
  [ "function Object() \x7b [native code] \x7d".toList, "[object Object]".toList ]

/-- The date of an entry is canonical, or it is a year of four digits, `-`, the
text of an inherited property, `-` and a day of two digits. -/
def DateOfRow (date : Str) : Prop :=
  isCanonicalDate date = true
    ∨ ∃ (y month d : Str), date = y ++ '-' :: (month ++ '-' :: d) ∧ month ∈ inheritedTexts

/-- Upper-casing of one ASCII character, as `toUpperCase` does on ASCII text. -/
def upperChar (c : Char) : Char :=
  if 97 ≤ c.toNat ∧ c.toNat ≤ 122 then Char.ofNat (c.toNat - 32) else c

/-- A council page with two rows. -/
def sampleHtml : Str :=
  rowHtml "Tuesday".toList "24 February, 2026".toList "Recycling Box".toList
    ++ rowHtml "Tuesday".toList "17 February, 2026".toList "Domestic Waste 140L Bin".toList

/-- A form page with one of the hidden fields. -/
def sampleFormHtml : Str :=
  "<input name=\"FormGuid\" type=\"hidden\" value=\"abc\" />".toList

/-- An environment in which every remote call succeeds and the postcode
`DE4 3AB` has one address, every other postcode another one. -/
def sampleEnv : Env :=
  { now := fun _ => 1000
    toUpperCase := fun s => s.map upperChar
    localeCompare := codePointCompare
    addressLookup := fun _ query =>
      if query = "DE4 3AB".toList then
        AddressReply.response 200
          (some [("U100".toList, "1 High Street, Matlock, DE4 3AB".toList)])
      else
        AddressReply.response 200
          (some [("U200".toList, "2 Low Road, Bakewell, DE45 1QQ".toList)])
    formPage := fun _ => FormReply.response 200 sampleFormHtml none
    submit := fun _ _ => SubmitReply.response 200 sampleHtml }

/-- An environment whose address-lookup endpoint answers with the given status
and mapping. -/
def addressEnv (status : Nat) (entries : Option (List (Str × Str))) : Env :=
  { sampleEnv with addressLookup := fun _ _ => AddressReply.response status entries }

/-- The world of a process that has just started. -/
def emptyWorld : World :=
  { addressCache := []
    collectionCache := []
    clockReads := 0
    addressLookupCalls := 0
    formPageCalls := 0
    submitCalls := 0 }

/-- The note of the fallback object when the address lookup did not return an
address. -/
def addressFailureNote : Str :=
  ("Unable to fetch data from council API. Error: No addresses found for this postcode. "
    ++ "Please check the postcode and try again.").toList

/-- The reply gives no address: the request failed, the status is not a
success, the body could not be read as a mapping, or the mapping is empty. -/
def replyFails : AddressReply → Bool
  | AddressReply.failed => true
  | AddressReply.response _ none => true
  | AddressReply.response status (some entries) => !httpOk status || entries.isEmpty

/-! ## Facts about the character classes -/

theorem isWord_of_isDigit {c : Char} (h : isDigit c = true) : isWord c = true := by
  simp only [isDigit, isWord, Bool.and_eq_true, Bool.or_eq_true, decide_eq_true_eq] at h ⊢
  omega

theorem not_isSpace_of_isWord {c : Char} (h : isWord c = true) : isSpace c = false := by
  simp only [isWord, Bool.and_eq_true, Bool.or_eq_true, decide_eq_true_eq] at h
  simp only [isSpace, Bool.or_eq_false_iff, Bool.and_eq_false_imp, decide_eq_false_iff_not,
    decide_eq_true_eq]
  omega

theorem not_isSpace_of_isDigit {c : Char} (h : isDigit c = true) : isSpace c = false :=
  not_isSpace_of_isWord (isWord_of_isDigit h)

theorem not_isDigit_of_isSpace {c : Char} (h : isSpace c = true) : isDigit c = false := by
  cases h2 : isDigit c with
  | false => rfl
  | true => rw [not_isSpace_of_isDigit h2] at h; cases h

theorem not_isWord_of_isSpace {c : Char} (h : isSpace c = true) : isWord c = false := by
  cases h2 : isWord c with
  | false => rfl
  | true => rw [not_isSpace_of_isWord h2] at h; cases h

theorem isWord_of_lowerChar {c : Char} (h : isWord (lowerChar c) = true) : isWord c = true := by
  unfold lowerChar at h
  split at h
  · rename_i hc
    simp only [isWord, Bool.and_eq_true, Bool.or_eq_true, decide_eq_true_eq]
    omega
  · exact h

/-! ## Facts about greedy runs and searches -/

theorem stopsAt_cons {cls : Char → Bool} {c : Char} {s : Str} (h : cls c = false) :
    StopsAt cls (c :: s) := by
  intro d hd
  simp at hd
  subst hd
  exact h

theorem takeWhile_run {cls : Char → Bool} {xs rest : Str}
    (hxs : ∀ c ∈ xs, cls c = true) (hrest : StopsAt cls rest) :
    (xs ++ rest).takeWhile cls = xs := by
  induction xs with
  | nil =>
    cases rest with
    | nil => rfl
    | cons c r =>
      have := hrest c (by simp)
      simp [List.takeWhile, this]
  | cons x xs ih =>
    have hx := hxs x (by simp)
    simp only [List.cons_append, List.takeWhile_cons, hx, if_true]
    rw [ih (fun c hc => hxs c (by simp [hc]))]

theorem dropWhile_run {cls : Char → Bool} {xs rest : Str}
    (hxs : ∀ c ∈ xs, cls c = true) (hrest : StopsAt cls rest) :
    (xs ++ rest).dropWhile cls = rest := by
  induction xs with
  | nil =>
    cases rest with
    | nil => rfl
    | cons c r =>
      have := hrest c (by simp)
      simp [List.dropWhile, this]
  | cons x xs ih =>
    have hx := hxs x (by simp)
    simp only [List.cons_append, List.dropWhile_cons, hx, if_true]
    rw [ih (fun c hc => hxs c (by simp [hc]))]

theorem many1_run {cls : Char → Bool} {xs rest : Str} (hne : xs ≠ [])
    (hxs : ∀ c ∈ xs, cls c = true) (hrest : StopsAt cls rest) :
    many1 cls (xs ++ rest) = some (xs, rest) := by
  unfold many1
  rw [takeWhile_run hxs hrest, dropWhile_run hxs hrest]
  simp [hne]

theorem many1_eq_some {cls : Char → Bool} {s xs rest : Str}
    (h : many1 cls s = some (xs, rest)) :
    s = xs ++ rest ∧ xs ≠ [] ∧ (∀ c ∈ xs, cls c = true) := by
  unfold many1 at h
  split at h
  · cases h
  · rename_i hne
    simp only [Option.some.injEq, Prod.mk.injEq] at h
    obtain ⟨h1, h2⟩ := h
    subst h1 h2
    exact ⟨(List.takeWhile_append_dropWhile cls s).symm, hne,
      fun c hc => List.mem_takeWhile_imp hc⟩

theorem digitsRange_run {lo hi : Nat} {ds rest : Str}
    (hds : ∀ c ∈ ds, isDigit c = true) (hlo : lo ≤ ds.length) (hhi : ds.length ≤ hi)
    (hrest : ds.length = hi ∨ StopsAt isDigit rest) :
    digitsRange lo hi (ds ++ rest) = some (ds, rest) := by
  have htake : ((ds ++ rest).takeWhile isDigit).take hi = ds := by
    rcases hrest with h | h
    · have h1 : (ds ++ rest).takeWhile isDigit = ds ++ rest.takeWhile isDigit := by
        clear hlo hhi h
        induction ds with
        | nil => rfl
        | cons x xs ih =>
          have hx := hds x (by simp)
          simp only [List.cons_append, List.takeWhile_cons, hx, if_true]
          rw [ih (fun c hc => hds c (by simp [hc]))]
      rw [h1, ← h, List.take_left]
    · rw [takeWhile_run hds h]
      exact List.take_of_length_le hhi
  unfold digitsRange
  simp only [htake, hlo, if_true, List.drop_left]

theorem digitsRange_eq_some {lo hi : Nat} {s ds rest : Str}
    (h : digitsRange lo hi s = some (ds, rest)) :
    s = ds ++ rest ∧ lo ≤ ds.length ∧ ds.length ≤ hi ∧ (∀ c ∈ ds, isDigit c = true) := by
  unfold digitsRange at h
  simp only at h
  split at h
  · rename_i hlo
    simp only [Option.some.injEq, Prod.mk.injEq] at h
    obtain ⟨h1, h2⟩ := h
    subst h1
    refine ⟨?_, hlo, ?_, ?_⟩
    · rw [← h2]
      have hpre : (s.takeWhile isDigit).take hi <+: s :=
        (List.take_prefix _ _).trans (List.takeWhile_prefix _)
      exact (List.prefix_iff_eq_append.mp hpre).symm
    · simp [List.length_take]
    · intro c hc
      exact List.mem_takeWhile_imp (List.mem_of_mem_take hc)
  · cases h

theorem searchFirst_of_head {α : Type} {m : Str → Option α} {s : Str} {r : α}
    (h : m s = some r) : searchFirst m s = some r := by
  cases s with
  | nil => exact h
  | cons c cs => simp [searchFirst, h]

/-! ## Facts about cleaning -/

theorem collapseSpacesAux_cons {x : Char} (t : Str) (b : Bool) (hx : isSpace x = false) :
    collapseSpacesAux b (x :: t) = x :: collapseSpacesAux false t := by
  simp [collapseSpacesAux, hx]

theorem collapseSpacesAux_false_run {xs : Str} (rest : Str)
    (hxs : ∀ c ∈ xs, isSpace c = false) :
    collapseSpacesAux false (xs ++ rest) = xs ++ collapseSpacesAux false rest := by
  induction xs with
  | nil => rfl
  | cons x xs ih =>
    rw [List.cons_append, collapseSpacesAux_cons _ _ (hxs x (by simp)),
      ih (fun c hc => hxs c (by simp [hc])), List.cons_append]

theorem collapseSpacesAux_run {xs : Str} (rest : Str) (b : Bool) (hne : xs ≠ [])
    (hxs : ∀ c ∈ xs, isSpace c = false) :
    collapseSpacesAux b (xs ++ rest) = xs ++ collapseSpacesAux false rest := by
  cases xs with
  | nil => exact absurd rfl hne
  | cons x xs =>
    rw [List.cons_append, collapseSpacesAux_cons _ _ (hxs x (by simp)),
      collapseSpacesAux_false_run _ (fun c hc => hxs c (by simp [hc])), List.cons_append]

theorem collapseSpacesAux_space (rest : Str) :
    collapseSpacesAux false (' ' :: rest) = ' ' :: collapseSpacesAux true rest := by
  have h : isSpace ' ' = true := by decide
  simp [collapseSpacesAux, h]

theorem trim_eq_self {s : Str} (hhead : ∀ c ∈ s.head?, isSpace c = false)
    (hlast : ∀ c ∈ s.getLast?, isSpace c = false) : trim s = s := by
  have h1 : s.dropWhile isSpace = s := by
    cases s with
    | nil => rfl
    | cons c cs => simp [List.dropWhile_cons, hhead c (by simp)]
  have h2 : s.reverse.dropWhile isSpace = s.reverse := by
    cases hr : s.reverse with
    | nil => rfl
    | cons c cs =>
      have : s.getLast? = some c := by
        rw [List.getLast?_eq_head?_reverse, hr]; rfl
      simp [List.dropWhile_cons, hlast c (by simp [this])]
  unfold trim
  rw [h1, h2, List.reverse_reverse]

/-! ## Facts about the month table -/

theorem ownProperty_mem {table : List (Str × Str)} {key value : Str}
    (h : ownProperty table key = some value) : (key, value) ∈ table := by
  induction table with
  | nil => cases h
  | cons p rest ih =>
    obtain ⟨k, v⟩ := p
    unfold ownProperty at h
    split at h
    · rename_i hk
      cases h
      subst hk
      simp
    · exact List.mem_cons_of_mem _ (ih h)

theorem monthNames_wellFormed :
    ∀ p ∈ monthNames, p.1 ≠ [] ∧ (∀ c ∈ p.1, isWord c = true)
      ∧ ∃ m1 m2, p.2 = [m1, m2] ∧ isDigit m1 = true ∧ isDigit m2 = true := by
  intro p hp
  simp only [monthNames, List.mem_cons, List.mem_singleton, List.not_mem_nil, or_false] at hp
  rcases hp with h | h | h | h | h | h | h | h | h | h | h | h | h | h | h | h | h | h | h | h
    | h | h | h <;> subst h <;> exact ⟨by decide, by decide, _, _, rfl, by decide, by decide⟩

theorem name_of_lower {name key : Str} (h : toLowerCase name = key) (hne : key ≠ [])
    (hkey : ∀ c ∈ key, isWord c = true) : name ≠ [] ∧ ∀ c ∈ name, isWord c = true := by
  subst h
  constructor
  · intro h0
    subst h0
    exact hne rfl
  · intro c hc
    apply isWord_of_lowerChar
    apply hkey
    exact List.mem_map_of_mem _ hc

/-! ## The two date patterns -/

theorem stopsAt_append {cls : Char → Bool} {xs : Str} (rest : Str) (hne : xs ≠ [])
    (h : ∀ c ∈ xs, cls c = false) : StopsAt cls (xs ++ rest) := by
  cases xs with
  | nil => exact absurd rfl hne
  | cons x xs => exact stopsAt_cons (h x (by simp))

theorem optComma_commaText (comma : Bool) {rest : Str} (hrest : ∀ c ∈ rest.head?, c ≠ ',') :
    optComma (commaText comma ++ rest) = (commaText comma, rest) := by
  cases comma with
  | true => rfl
  | false =>
    cases rest with
    | nil => rfl
    | cons c r =>
      have hc : c ≠ ',' := hrest c (by simp)
      simp only [commaText, Bool.false_eq_true, if_false, List.nil_append]
      unfold optComma
      split
      · rename_i heq
        simp only [List.cons.injEq] at heq
        exact absurd heq.1 hc
      · rfl

theorem stopsAt_isWord_comma_spaces (comma : Bool) {ws : Str} (rest : Str) (hne : ws ≠ [])
    (hws : ∀ c ∈ ws, isSpace c = true) : StopsAt isWord (commaText comma ++ (ws ++ rest)) := by
  cases comma with
  | true => exact stopsAt_cons (by decide)
  | false => exact stopsAt_append rest hne (fun c hc => not_isWord_of_isSpace (hws c hc))

theorem head_ne_comma_of_spaces {ws : Str} (rest : Str) (hne : ws ≠ [])
    (hws : ∀ c ∈ ws, isSpace c = true) : ∀ c ∈ (ws ++ rest).head?, c ≠ ',' := by
  cases ws with
  | nil => exact absurd rfl hne
  | cons x xs =>
    intro c hc
    simp at hc
    subst hc
    intro h
    have := hws x (by simp)
    rw [h] at this
    revert this
    decide

theorem monthPatternAt_shape {d ws1 name ws2 y : Str} (comma : Bool) (rest : Str)
    (h : DateShape d ws1 name ws2 y) :
    monthPatternAt (d ++ (ws1 ++ (name ++ (commaText comma ++ (ws2 ++ (y ++ rest))))))
      = some (d, name, y) := by
  have h1 : digitsRange 1 2 (d ++ (ws1 ++ (name ++ (commaText comma ++ (ws2 ++ (y ++ rest))))))
      = some (d, ws1 ++ (name ++ (commaText comma ++ (ws2 ++ (y ++ rest))))) :=
    digitsRange_run h.day_digits h.day_min h.day_max
      (Or.inr (stopsAt_append _ h.ws1_ne (fun c hc => not_isDigit_of_isSpace (h.ws1_spaces c hc))))
  have h2 : many1 isSpace (ws1 ++ (name ++ (commaText comma ++ (ws2 ++ (y ++ rest)))))
      = some (ws1, name ++ (commaText comma ++ (ws2 ++ (y ++ rest)))) :=
    many1_run h.ws1_ne h.ws1_spaces
      (stopsAt_append _ h.name_ne (fun c hc => not_isSpace_of_isWord (h.name_word c hc)))
  have h3 : many1 isWord (name ++ (commaText comma ++ (ws2 ++ (y ++ rest))))
      = some (name, commaText comma ++ (ws2 ++ (y ++ rest))) :=
    many1_run h.name_ne h.name_word (stopsAt_isWord_comma_spaces comma _ h.ws2_ne h.ws2_spaces)
  have h4 : optComma (commaText comma ++ (ws2 ++ (y ++ rest)))
      = (commaText comma, ws2 ++ (y ++ rest)) :=
    optComma_commaText comma (head_ne_comma_of_spaces _ h.ws2_ne h.ws2_spaces)
  have hy : y ≠ [] := by
    intro h0
    have := h.year_length
    rw [h0] at this
    cases this
  have h5 : many1 isSpace (ws2 ++ (y ++ rest)) = some (ws2, y ++ rest) :=
    many1_run h.ws2_ne h.ws2_spaces
      (stopsAt_append _ hy (fun c hc => not_isSpace_of_isDigit (h.year_digits c hc)))
  have h6 : digitsRange 4 4 (y ++ rest) = some (y, rest) :=
    digitsRange_run h.year_digits (le_of_eq h.year_length.symm) (le_of_eq h.year_length)
      (Or.inl h.year_length)
  unfold monthPatternAt
  simp only [h1, h2, h3, h4, h5, h6]

theorem optComma_eq (s : Str) :
    ∃ comma : Bool, s = commaText comma ++ (optComma s).2 ∧ (optComma s).1 = commaText comma := by
  unfold optComma
  split
  · exact ⟨true, rfl, rfl⟩
  · exact ⟨false, rfl, rfl⟩

theorem sepChar_eq_some {s r : Str} {c : Char} (h : sepChar s = some (c, r)) :
    s = c :: r ∧ (c = '/' ∨ c = '-') := by
  unfold sepChar at h
  split at h
  · split at h
    · rename_i hc
      simp only [Option.some.injEq, Prod.mk.injEq] at h
      obtain ⟨h1, h2⟩ := h
      subst h1 h2
      exact ⟨rfl, hc⟩
    · cases h
  · cases h

theorem slashPatternAt_eq_some {s d m y : Str} (h : slashPatternAt s = some (d, m, y)) :
    ∃ (s1 s2 : Char) (rest : Str),
      s = d ++ s1 :: (m ++ s2 :: (y ++ rest)) ∧ SlashShape d m y s1 s2 := by
  unfold slashPatternAt at h
  cases h1 : digitsRange 1 2 s with
  | none => rw [h1] at h; cases h
  | some p1 =>
    obtain ⟨d0, r1⟩ := p1
    rw [h1] at h
    simp only at h
    cases h2 : sepChar r1 with
    | none => rw [h2] at h; cases h
    | some p2 =>
      obtain ⟨s1, r2⟩ := p2
      rw [h2] at h
      simp only at h
      cases h3 : digitsRange 1 2 r2 with
      | none => rw [h3] at h; cases h
      | some p3 =>
        obtain ⟨m0, r3⟩ := p3
        rw [h3] at h
        simp only at h
        cases h4 : sepChar r3 with
        | none => rw [h4] at h; cases h
        | some p4 =>
          obtain ⟨s2, r4⟩ := p4
          rw [h4] at h
          simp only at h
          cases h5 : digitsRange 2 4 r4 with
          | none => rw [h5] at h; cases h
          | some p5 =>
            obtain ⟨y0, r5⟩ := p5
            rw [h5] at h
            simp only [Option.some.injEq, Prod.mk.injEq] at h
            obtain ⟨e1, e2, e3⟩ := h
            subst e1 e2 e3
            obtain ⟨a1, a2, a3, a4⟩ := digitsRange_eq_some h1
            obtain ⟨b1, b2⟩ := sepChar_eq_some h2
            obtain ⟨c1, c2, c3, c4⟩ := digitsRange_eq_some h3
            obtain ⟨e1, e2⟩ := sepChar_eq_some h4
            obtain ⟨f1, f2, f3, f4⟩ := digitsRange_eq_some h5
            refine ⟨s1, s2, r5, ?_, ⟨a4, a2, a3, b2, c4, c2, c3, e2, f4, f2, f3⟩⟩
            rw [a1, b1, c1, e1, f1]

theorem not_isWord_sep {c : Char} (h : c = '/' ∨ c = '-') : isWord c = false := by
  rcases h with h | h <;> subst h <;> decide

theorem searchFirst_eq_none {α : Type} {m : Str → Option α} {s : Str}
    (h : ∀ pre post, s = pre ++ post → m post = none) : searchFirst m s = none := by
  induction s with
  | nil => exact h [] [] rfl
  | cons c cs ih =>
    unfold searchFirst
    rw [h [] (c :: cs) rfl]
    exact ih (fun pre post hp => h (c :: pre) post (by rw [hp]; rfl))

theorem collapseSpacesAux_true_spaces {ws : Str} (rest : Str)
    (hws : ∀ c ∈ ws, isSpace c = true) :
    collapseSpacesAux true (ws ++ rest) = collapseSpacesAux true rest := by
  induction ws with
  | nil => rfl
  | cons w ws ih =>
    have hw := hws w (by simp)
    simp only [List.cons_append, collapseSpacesAux, hw, if_true]
    exact ih (fun c hc => hws c (by simp [hc]))

theorem collapseSpacesAux_false_spaces {ws : Str} (rest : Str) (hne : ws ≠ [])
    (hws : ∀ c ∈ ws, isSpace c = true) :
    collapseSpacesAux false (ws ++ rest) = ' ' :: collapseSpacesAux true rest := by
  cases ws with
  | nil => exact absurd rfl hne
  | cons w ws =>
    have hw := hws w (by simp)
    simp only [List.cons_append, collapseSpacesAux, hw, if_true, Bool.false_eq_true, if_false]
    exact congrArg _ (collapseSpacesAux_true_spaces rest (fun c hc => hws c (by simp [hc])))

theorem trim_of_no_space_ends {x z : Char} (mid : Str) (hx : isSpace x = false)
    (hz : isSpace z = false) : trim (x :: (mid ++ [z])) = x :: (mid ++ [z]) := by
  apply trim_eq_self
  · intro c hc
    simp at hc
    subst hc
    exact hx
  · intro c hc
    rw [show x :: (mid ++ [z]) = (x :: mid) ++ [z] from rfl, List.getLast?_append] at hc
    simp at hc
    subst hc
    exact hz

/-! ## Facts about the canonical form -/

theorem isCanonicalDate_parts {y m d : Str} (hy : ∀ c ∈ y, isDigit c = true)
    (hy4 : y.length = 4) (hm : ∀ c ∈ m, isDigit c = true) (hm2 : m.length = 2)
    (hd : ∀ c ∈ d, isDigit c = true) (hd2 : d.length = 2) :
    isCanonicalDate (y ++ '-' :: (m ++ '-' :: d)) = true := by
  rcases y with _ | ⟨y1, _ | ⟨y2, _ | ⟨y3, _ | ⟨y4, _ | ⟨y5, t⟩⟩⟩⟩⟩ <;>
    simp at hy4
  rcases m with _ | ⟨m1, _ | ⟨m2, _ | ⟨m3, t⟩⟩⟩ <;> simp at hm2
  rcases d with _ | ⟨d1, _ | ⟨d2, _ | ⟨d3, t⟩⟩⟩ <;> simp at hd2
  simp only [List.mem_cons, List.mem_singleton, List.not_mem_nil, or_false, forall_eq_or_imp,
    forall_eq] at hy hm hd
  simp [isCanonicalDate, hy, hm, hd]

theorem padStart2_digits {d : Str} (hd : ∀ c ∈ d, isDigit c = true) (h1 : 1 ≤ d.length)
    (h2 : d.length ≤ 2) :
    (∀ c ∈ padStart2 d, isDigit c = true) ∧ (padStart2 d).length = 2 := by
  rcases d with _ | ⟨d1, _ | ⟨d2, _ | ⟨d3, t⟩⟩⟩
  · simp at h1
  · simp only [List.mem_singleton, forall_eq] at hd
    have h0 : isDigit '0' = true := by decide
    simp [padStart2, hd, h0]
  · simp only [List.mem_cons, List.mem_singleton, forall_eq_or_imp, forall_eq] at hd
    simp [padStart2, hd]
  · simp at h2

/-! ## The date normaliser on the accepted shapes -/

theorem NamedDate.name_word {d ws1 name ws2 y month : Str}
    (h : NamedDate d ws1 name ws2 y month) : name ≠ [] ∧ ∀ c ∈ name, isWord c = true := by
  have hmem := ownProperty_mem h.name_month
  obtain ⟨k1, k2, _⟩ := monthNames_wellFormed _ hmem
  exact name_of_lower rfl k1 k2

theorem commaText_no_space (comma : Bool) : ∀ c ∈ commaText comma, isSpace c = false := by
  cases comma with
  | true =>
    intro c hc
    simp [commaText] at hc
    subst hc
    decide
  | false =>
    intro c hc
    simp [commaText] at hc

theorem DateShape.single {d ws1 name ws2 y : Str} (h : DateShape d ws1 name ws2 y) :
    DateShape d [' '] name [' '] y :=
  ⟨h.day_digits, h.day_min, h.day_max, by simp, by simp; decide, h.name_ne,
    h.name_word, by simp, by simp; decide, h.year_digits, h.year_length⟩

theorem DateShape.cleaned {d ws1 name ws2 y : Str} (comma : Bool)
    (h : DateShape d ws1 name ws2 y) :
    trim (collapseSpaces (d ++ ws1 ++ name ++ commaText comma ++ ws2 ++ y))
      = d ++ ([' '] ++ (name ++ (commaText comma ++ ([' '] ++ (y ++ []))))) := by
  have hd : ∀ c ∈ d, isSpace c = false := fun c hc => not_isSpace_of_isDigit (h.day_digits c hc)
  have hy : ∀ c ∈ y, isSpace c = false := fun c hc => not_isSpace_of_isDigit (h.year_digits c hc)
  have hnc : ∀ c ∈ name ++ commaText comma, isSpace c = false := by
    intro c hc
    rcases List.mem_append.mp hc with h1 | h1
    · exact not_isSpace_of_isWord (h.name_word c h1)
    · exact commaText_no_space comma c h1
  have hnc0 : name ++ commaText comma ≠ [] := by
    intro h0
    exact h.name_ne (List.append_eq_nil.mp h0).1
  have hy0 : y ≠ [] := by
    intro h0
    have := h.year_length
    rw [h0] at this
    cases this
  have hcollapse : collapseSpaces (d ++ ws1 ++ name ++ commaText comma ++ ws2 ++ y)
      = d ++ ([' '] ++ (name ++ (commaText comma ++ ([' '] ++ (y ++ []))))) := by
    unfold collapseSpaces
    have e : d ++ ws1 ++ name ++ commaText comma ++ ws2 ++ y
        = d ++ (ws1 ++ ((name ++ commaText comma) ++ (ws2 ++ (y ++ [])))) := by
      simp [List.append_assoc]
    rw [e, collapseSpacesAux_false_run _ hd, collapseSpacesAux_false_spaces _ h.ws1_ne h.ws1_spaces,
      collapseSpacesAux_run _ true hnc0 hnc,
      collapseSpacesAux_false_spaces _ h.ws2_ne h.ws2_spaces,
      collapseSpacesAux_run _ true hy0 hy]
    simp [collapseSpacesAux, List.append_assoc]
  rw [hcollapse]
  rcases d with _ | ⟨d1, dt⟩
  · exact absurd h.day_min (by simp)
  · obtain ⟨yi, yl, hyy⟩ : ∃ yi yl, y = yi ++ [yl] := by
      rcases List.eq_nil_or_concat y with h0 | ⟨yi, yl, h0⟩
      · exact absurd h0 hy0
      · exact ⟨yi, yl, by rw [h0, List.concat_eq_append]⟩
    have e2 : (d1 :: dt) ++ ([' '] ++ (name ++ (commaText comma ++ ([' '] ++ (y ++ [])))))
        = d1 :: ((dt ++ ([' '] ++ (name ++ (commaText comma ++ ([' '] ++ yi))))) ++ [yl]) := by
      rw [hyy]
      simp [List.append_assoc]
    rw [e2]
    exact trim_of_no_space_ends _ (hd d1 (by simp)) (hy yl (by rw [hyy]; simp))

theorem slashPatternAt_has_sep {s : Str} {r : Str × Str × Str}
    (h : slashPatternAt s = some r) : ∃ c ∈ s, c = '/' ∨ c = '-' := by
  obtain ⟨d, m, y⟩ := r
  obtain ⟨s1, s2, rest, hs, hshape⟩ := slashPatternAt_eq_some h
  exact ⟨s1, by rw [hs]; simp, hshape.sep1⟩

theorem searchFirst_slash_none {s : Str} (h : ∀ c ∈ s, ¬ (c = '/' ∨ c = '-')) :
    searchFirst slashPatternAt s = none := by
  apply searchFirst_eq_none
  intro pre post hs
  cases hm : slashPatternAt post with
  | none => rfl
  | some r =>
    obtain ⟨c, hc, hsep⟩ := slashPatternAt_has_sep hm
    exact absurd hsep (h c (by rw [hs]; simp [hc]))

theorem not_sep_of_isWord {c : Char} (h : isWord c = true) : ¬ (c = '/' ∨ c = '-') := by
  intro hs
  rw [not_isWord_sep hs] at h
  cases h

theorem DateShape.no_sep {d name y : Str} (comma : Bool) (h : DateShape d [' '] name [' '] y) :
    ∀ c ∈ d ++ ([' '] ++ (name ++ (commaText comma ++ ([' '] ++ (y ++ []))))),
      ¬ (c = '/' ∨ c = '-') := by
  intro c hc
  simp only [List.mem_append, List.mem_singleton, List.not_mem_nil, or_false] at hc
  rcases hc with h1 | h1 | h1 | h1 | h1 | h1
  · exact not_sep_of_isWord (isWord_of_isDigit (h.day_digits c h1))
  · subst h1; decide
  · exact not_sep_of_isWord (h.name_word c h1)
  · cases comma with
    | true =>
      simp [commaText] at h1
      subst h1
      decide
    | false => simp [commaText] at h1
  · subst h1; decide
  · exact not_sep_of_isWord (isWord_of_isDigit (h.year_digits c h1))

theorem normalizeDate_unknown_month {d ws1 name ws2 y : Str} (comma : Bool)
    (h : DateShape d ws1 name ws2 y) (hname : monthLookup (toLowerCase name) = none) :
    normalizeDate (d ++ ws1 ++ name ++ commaText comma ++ ws2 ++ y) = none := by
  unfold normalizeDate
  simp only
  rw [h.cleaned comma, searchFirst_of_head (monthPatternAt_shape comma [] h.single)]
  simp only [hname]
  unfold normalizeSlash
  rw [searchFirst_slash_none (h.single.no_sep comma)]

theorem addRow_nodup (collections : List CollectionEntry) (m : Str × Str)
    (h : collections.Nodup) : (addRow collections m).Nodup := by
  unfold addRow
  simp only
  cases hd : normalizeDate (trim m.1) with
  | none => exact h
  | some date =>
    simp only
    cases hf : collections.find? (fun c =>
        decide (c.date = date) && decide (c.type = classify (trim m.2))) with
    | some e => exact h
    | none =>
      simp only
      rw [List.nodup_append]
      refine ⟨h, List.nodup_singleton _, ?_⟩
      intro a ha hb
      have hb2 : a = CollectionEntry.mk (classify (trim m.2)) date := by simpa using hb
      have := List.find?_eq_none.mp hf a ha
      rw [hb2] at this
      simp at this

theorem foldl_addRow_nodup (rows : List (Str × Str)) (collections : List CollectionEntry)
    (h : collections.Nodup) : (rows.foldl addRow collections).Nodup := by
  induction rows generalizing collections with
  | nil => exact h
  | cons m rest ih => exact ih _ (addRow_nodup collections m h)

theorem sortByDate_perm (localeCompare : Str → Str → Int) (collections : List CollectionEntry) :
    (sortByDate localeCompare collections).Perm collections :=
  List.perm_insertionSort _ _

theorem sortByDate_singleton (localeCompare : Str → Str → Int) (e : CollectionEntry) :
    sortByDate localeCompare [e] = [e] := rfl

theorem parseCollectionDates_nodup_entries (localeCompare : Str → Str → Int) (html : Str) :
    (parseCollectionDates localeCompare html).Nodup :=
  (sortByDate_perm localeCompare _).nodup_iff.mpr (foldl_addRow_nodup _ [] List.nodup_nil)

theorem twoFragments_rows :
    (rowMatches 0 twoFragmentsHtml).foldl addRow []
      = [CollectionEntry.mk BinType.Refuse "2026-02-17".toList] := by
  decide!

theorem twoFragments_matches :
    rowMatches 0 twoFragmentsHtml
      = [("17 February, 2026".toList, "Domestic Waste 140L Bin".toList),
          ("17 Feb 2026".toList, "Refuse sack".toList)] := by
  decide!

/-- C4. For every comparator and every HTML text the list returned by
`parseCollectionDates` holds no (type, date) pair twice; the sample page has
two row fragments, both matched, for the same date and category, and gives
exactly one entry. -/
theorem parseCollectionDates_no_duplicate_pairs (localeCompare : Str → Str → Int)
    (html : Str) :
    ((parseCollectionDates localeCompare html).map (fun e => (e.type, e.date))).Nodup
      ∧ rowMatches 0 twoFragmentsHtml
          = [("17 February, 2026".toList, "Domestic Waste 140L Bin".toList),
              ("17 Feb 2026".toList, "Refuse sack".toList)]
      ∧ parseCollectionDates localeCompare twoFragmentsHtml
          = [CollectionEntry.mk BinType.Refuse "2026-02-17".toList] := by
  refine ⟨?_, twoFragments_matches, ?_⟩
  · apply List.Nodup.map _ (parseCollectionDates_nodup_entries localeCompare html)
    intro a b hab
    cases a
    cases b
    simp only [Prod.mk.injEq] at hab
    simp [hab.1, hab.2]
  · unfold parseCollectionDates
    rw [twoFragments_rows]
    rfl

theorem stopsAt_isDigit_rowMiddle (rest : Str) : StopsAt isDigit (rowMiddleText ++ rest) :=
  @stopsAt_cons isDigit '<' _ (by decide)

theorem DateShape.trim_text {d ws1 name ws2 y : Str} (comma : Bool)
    (h : DateShape d ws1 name ws2 y) :
    trim (d ++ ws1 ++ name ++ commaText comma ++ ws2 ++ y)
      = d ++ ws1 ++ name ++ commaText comma ++ ws2 ++ y := by
  apply trim_eq_self
  · intro c hc
    rcases d with _ | ⟨d1, dt⟩
    · exact absurd h.day_min (by simp)
    · simp at hc
      subst hc
      exact not_isSpace_of_isDigit (h.day_digits _ (by simp))
  · intro c hc
    have hy0 : y ≠ [] := by
      intro h0
      have := h.year_length
      rw [h0] at this
      cases this
    rw [List.getLast?_append_of_ne_nil _ hy0] at hc
    exact not_isSpace_of_isDigit (h.year_digits c (List.mem_of_mem_getLast? hc))

theorem inheritedMonth_rows :
    (rowMatches 0 inheritedMonthHtml).foldl addRow []
      = [CollectionEntry.mk BinType.Refuse
          "2026-function Object() \x7b [native code] \x7d-17".toList] := by
  decide!

/-- C5. On a council row whose month word is `constructor`, which is not in the
month table, `parseCollectionDates` returns an entry whose date is the year,
`-`, the text of the inherited property and `-17`, which is not of the form
`YYYY-MM-DD`. -/
theorem parseCollectionDates_inherited_month_not_canonical
    (localeCompare : Str → Str → Int) :
    parseCollectionDates localeCompare inheritedMonthHtml
        = [CollectionEntry.mk BinType.Refuse
            "2026-function Object() \x7b [native code] \x7d-17".toList]
      ∧ isCanonicalDate "2026-function Object() \x7b [native code] \x7d-17".toList = false
      ∧ ownProperty monthNames "constructor".toList = none := by
  refine ⟨?_, by decide, by decide⟩
  unfold parseCollectionDates
  rw [inheritedMonth_rows]
  rfl

/-! ## Sorting -/

theorem codePointCompare_le_iff (a b : Str) : codePointCompare a b ≤ 0 ↔ a ≤ b := by
  unfold codePointCompare
  by_cases h1 : a < b
  · simp [h1, le_of_lt h1]
  · by_cases h2 : a = b
    · simp [h2]
    · simp only [h1, h2, if_false]
      constructor
      · intro h; omega
      · intro h
        exact absurd (lt_of_le_of_ne h h2) h1

theorem sortByDate_sorted (collections : List CollectionEntry) :
    (sortByDate codePointCompare collections).Sorted (fun a b => a.date ≤ b.date) := by
  have h : (fun a b : CollectionEntry => codePointCompare a.date b.date ≤ 0)
      = (fun a b => a.date ≤ b.date) := by
    funext a b
    exact propext (codePointCompare_le_iff _ _)
  unfold sortByDate
  have := @List.sorted_insertionSort CollectionEntry (fun a b => a.date ≤ b.date) _
    ⟨fun a b => le_total a.date b.date⟩ ⟨fun a b c => le_trans⟩ collections
  convert this using 2

theorem parseCollectionDates_sorted_codePoint (html : Str) :
    (parseCollectionDates codePointCompare html).Sorted (fun a b => a.date ≤ b.date) :=
  sortByDate_sorted _

theorem normalizeDate_three_digit_year :
    normalizeDate "17/02/202".toList = some "202-02-17".toList := by
  decide

/-! ## The dates of the parsed entries -/

theorem dateTextAt_eq_some {s text rest : Str} (h : dateTextAt s = some (text, rest)) :
    ∃ (d ws1 name ws2 y : Str) (comma : Bool),
      text = d ++ ws1 ++ name ++ commaText comma ++ ws2 ++ y ∧ DateShape d ws1 name ws2 y := by
  unfold dateTextAt at h
  simp only [Option.bind_eq_some] at h
  obtain ⟨⟨d, r1⟩, h1, ⟨ws1, r2⟩, h2, ⟨name, r3⟩, h3, ⟨ws2, r4⟩, h4, ⟨y, r5⟩, h5, h6⟩ := h
  simp only [Option.some.injEq, Prod.mk.injEq] at h6
  obtain ⟨a1, a2, a3, a4⟩ := digitsRange_eq_some h1
  obtain ⟨b1, b2, b3⟩ := many1_eq_some h2
  obtain ⟨c1, c2, c3⟩ := many1_eq_some h3
  obtain ⟨comma, k1, k2⟩ := optComma_eq r3
  obtain ⟨e1, e2, e3⟩ := many1_eq_some h4
  obtain ⟨f1, f2, f3, f4⟩ := digitsRange_eq_some h5
  refine ⟨d, ws1, name, ws2, y, comma, ?_, ⟨a4, a2, a3, b2, b3, c2, c3, e2, e3, f4,
    le_antisymm f3 f2⟩⟩
  rw [← h6.1, k2]

theorem rowPatternAt_eq_some {s dateText binText rest : Str}
    (h : rowPatternAt s = some (dateText, binText, rest)) :
    ∃ (d ws1 name ws2 y : Str) (comma : Bool),
      dateText = d ++ ws1 ++ name ++ commaText comma ++ ws2 ++ y
        ∧ DateShape d ws1 name ws2 y := by
  unfold rowPatternAt at h
  simp only [Option.bind_eq_some] at h
  obtain ⟨r1, _, weekday, _, r2, _, ws, _, ⟨text, r5⟩, h5, r3, _, binText2, _, r4, _, h9⟩ := h
  simp only [Option.some.injEq, Prod.mk.injEq] at h9
  obtain ⟨d, ws1, name, ws2, y, comma, ht, hshape⟩ := dateTextAt_eq_some h5
  exact ⟨d, ws1, name, ws2, y, comma, by rw [← h9.1, ht], hshape⟩

theorem rowMatches_shape (s : Str) (skip : Nat) :
    ∀ m ∈ rowMatches skip s,
      ∃ (d ws1 name ws2 y : Str) (comma : Bool),
        m.1 = d ++ ws1 ++ name ++ commaText comma ++ ws2 ++ y
          ∧ DateShape d ws1 name ws2 y := by
  induction s generalizing skip with
  | nil =>
    intro m hm
    simp [rowMatches] at hm
  | cons c cs ih =>
    cases skip with
    | succ k =>
      intro m hm
      rw [rowMatches] at hm
      exact ih k m hm
    | zero =>
      intro m hm
      rw [rowMatches] at hm
      cases hrow : rowPatternAt (c :: cs) with
      | none =>
        rw [hrow] at hm
        exact ih 0 m hm
      | some r =>
        obtain ⟨dateText, binText, rest⟩ := r
        rw [hrow] at hm
        simp only [List.mem_cons] at hm
        rcases hm with hm | hm
        · subst hm
          exact rowPatternAt_eq_some hrow
        · exact ih _ m hm

theorem normalizeDate_of_shape {d ws1 name ws2 y : Str} (comma : Bool)
    (h : DateShape d ws1 name ws2 y) :
    normalizeDate (trim (d ++ ws1 ++ name ++ commaText comma ++ ws2 ++ y))
      = (monthLookup (toLowerCase name)).map
          (fun month => y ++ '-' :: (month ++ '-' :: padStart2 d)) := by
  rw [h.trim_text comma]
  cases hm : monthLookup (toLowerCase name) with
  | none => exact normalizeDate_unknown_month comma h hm
  | some month =>
    unfold normalizeDate
    simp only
    rw [h.cleaned comma, searchFirst_of_head (monthPatternAt_shape comma [] h.single)]
    simp only [hm]
    simp [List.append_assoc]

theorem monthLookup_eq_some {name month : Str} (h : monthLookup name = some month) :
    ownProperty monthNames name = some month
      ∨ (ownProperty monthNames name = none ∧ month ∈ inheritedTexts) := by
  unfold monthLookup at h
  cases ho : ownProperty monthNames name with
  | some m =>
    rw [ho] at h
    exact Or.inl h
  | none =>
    rw [ho] at h
    simp only at h
    right
    refine ⟨rfl, ?_⟩
    split at h
    · cases h
      simp [inheritedTexts]
    · split at h
      · cases h
        simp [inheritedTexts]
      · cases h

theorem addRow_dates (collections : List CollectionEntry) (m : Str × Str)
    (hm : ∃ (d ws1 name ws2 y : Str) (comma : Bool),
      m.1 = d ++ ws1 ++ name ++ commaText comma ++ ws2 ++ y ∧ DateShape d ws1 name ws2 y)
    (h : ∀ e ∈ collections, DateOfRow e.date) :
    ∀ e ∈ addRow collections m, DateOfRow e.date := by
  obtain ⟨d, ws1, name, ws2, y, comma, htext, hshape⟩ := hm
  unfold addRow
  simp only
  rw [htext, normalizeDate_of_shape comma hshape]
  cases hl : monthLookup (toLowerCase name) with
  | none => simpa using h
  | some month =>
    simp only [Option.map_some']
    split
    · exact h
    · intro e he
      rcases List.mem_append.mp he with he | he
      · exact h e he
      · simp only [List.mem_singleton] at he
        subst he
        simp only
        rcases monthLookup_eq_some hl with hown | ⟨_, hinh⟩
        · left
          obtain ⟨m1, m2, hmm, hm1, hm2⟩ := (monthNames_wellFormed _ (ownProperty_mem hown)).2.2
          simp only at hmm
          have hpad := padStart2_digits hshape.day_digits hshape.day_min hshape.day_max
          refine isCanonicalDate_parts hshape.year_digits hshape.year_length ?_ ?_ hpad.1 hpad.2
          · intro c hc
            rw [hmm] at hc
            simp at hc
            rcases hc with h | h <;> subst h <;> assumption
          · rw [hmm]; rfl
        · right
          exact ⟨y, month, padStart2 d, rfl, hinh⟩

theorem foldl_addRow_dates (rows : List (Str × Str)) (collections : List CollectionEntry)
    (hrows : ∀ m ∈ rows, ∃ (d ws1 name ws2 y : Str) (comma : Bool),
      m.1 = d ++ ws1 ++ name ++ commaText comma ++ ws2 ++ y ∧ DateShape d ws1 name ws2 y)
    (h : ∀ e ∈ collections, DateOfRow e.date) :
    ∀ e ∈ rows.foldl addRow collections, DateOfRow e.date := by
  induction rows generalizing collections with
  | nil => exact h
  | cons m rest ih =>
    exact ih _ (fun m2 hm2 => hrows m2 (List.mem_cons_of_mem _ hm2))
      (addRow_dates collections m (hrows m (by simp)) h)

theorem parseCollectionDates_dates (localeCompare : Str → Str → Int) (html : Str) :
    ∀ e ∈ parseCollectionDates localeCompare html, DateOfRow e.date := by
  intro e he
  have he2 : e ∈ (rowMatches 0 html).foldl addRow [] :=
    (sortByDate_perm localeCompare _).mem_iff.mp he
  exact foldl_addRow_dates _ [] (rowMatches_shape html 0) (by simp) e he2

/-! ## Facts about the cache -/

theorem mapGet_mapDelete_self {α : Type} (cache : CacheMap α) (key : Str) :
    mapGet (mapDelete cache key) key = none := by
  induction cache with
  | nil => rfl
  | cons p rest ih =>
    obtain ⟨k, e⟩ := p
    by_cases h : k = key
    · simpa [mapDelete, h] using ih
    · simpa [mapDelete, h, mapGet] using ih

theorem mapGet_mapDelete_other {α : Type} (cache : CacheMap α) (k key : Str) (h : k ≠ key) :
    mapGet (mapDelete cache k) key = mapGet cache key := by
  induction cache with
  | nil => rfl
  | cons p rest ih =>
    obtain ⟨k', e⟩ := p
    by_cases h1 : k' = k
    · subst h1
      simpa [mapDelete, mapGet, h] using ih
    · by_cases h2 : k' = key
      · subst h2
        simp [mapDelete, mapGet, h1]
      · simpa [mapDelete, mapGet, h1, h2] using ih

theorem mapGet_mapSet {α : Type} (cache : CacheMap α) (k key : Str) (entry : CacheEntry α) :
    mapGet (mapSet cache k entry) key = if k = key then some entry else mapGet cache key := by
  induction cache with
  | nil => simp [mapSet, mapGet]
  | cons p rest ih =>
    obtain ⟨k', e⟩ := p
    by_cases h1 : k' = k
    · subst h1
      by_cases h2 : k' = key <;> simp [mapSet, mapGet, h2]
    · by_cases h2 : k' = key
      · subst h2
        have h3 : ¬ k = k' := fun h => h1 h.symm
        simp [mapSet, mapGet, h1, h3]
      · simp [mapSet, mapGet, h1, h2, ih]

theorem getCached_fst {α : Type} (cache : CacheMap α) (key : Str) (ttl now : Int) :
    (getCached cache key ttl now).1
      = match mapGet cache key with
        | some e => if now - e.timestamp < ttl then some e.data else none
        | none => none := by
  unfold getCached
  cases mapGet cache key with
  | none => rfl
  | some e => by_cases h : now - e.timestamp < ttl <;> simp [h]

theorem getCached_snd {α : Type} (cache : CacheMap α) (key : Str) (ttl now : Int) :
    (getCached cache key ttl now).2
      = if (getCached cache key ttl now).1.isNone then mapDelete cache key else cache := by
  unfold getCached
  cases mapGet cache key with
  | none => rfl
  | some e => by_cases h : now - e.timestamp < ttl <;> simp [h]

theorem getCached_after_miss {α : Type} (cache : CacheMap α) (key : Str) (ttl now : Int) :
    (getCached (mapDelete cache key) key ttl now).1 = none := by
  rw [getCached_fst, mapGet_mapDelete_self]

/-- C7. For every cache, key, time-to-live and clock value, `getCached` either
finds an entry for the key that was stored less than the time-to-live ago, and
then returns its value and leaves the cache as it is; or the key is absent or
its entry is at least the time-to-live old, and then it returns a miss, the
cache afterwards holds no entry for the key, and every later `getCached` on
that key misses, whatever the time-to-live and the clock.  The entry found for
a key is the one written by the last `setCache` on that key: `setCache` on a key
stores the value with the clock value, operations on other keys leave the
entry alone, and a `getCached` right after `setCache` returns the stored value
exactly when the clock has advanced by less than the time-to-live. -/
theorem getCached_returns_stored_value_iff_fresh {α : Type} (cache : CacheMap α)
    (key : Str) (ttl now : Int) :
    ((∃ e, mapGet cache key = some e ∧ now - e.timestamp < ttl
        ∧ getCached cache key ttl now = (some e.data, cache))
      ∨ ((mapGet cache key = none
            ∨ ∃ e, mapGet cache key = some e ∧ ttl ≤ now - e.timestamp)
          ∧ (getCached cache key ttl now).1 = none
          ∧ mapGet (getCached cache key ttl now).2 key = none
          ∧ ∀ ttl2 now2 : Int,
              (getCached (getCached cache key ttl now).2 key ttl2 now2).1 = none))
    ∧ (∀ (k : Str) (value : α) (storedAt : Int),
        mapGet (setCache cache k value storedAt) key
          = if k = key then some (CacheEntry.mk value storedAt) else mapGet cache key)
    ∧ (∀ (k : Str) (ttl2 now2 : Int),
        mapGet (getCached cache k ttl2 now2).2 key
          = if k = key ∧ (getCached cache k ttl2 now2).1.isNone then none
            else mapGet cache key)
    ∧ (∀ (value : α) (storedAt : Int),
        (getCached (setCache cache key value storedAt) key ttl now).1
          = if now - storedAt < ttl then some value else none) := by
  refine ⟨?_, ?_, ?_, ?_⟩
  · cases hget : mapGet cache key with
    | none =>
      right
      have h1 : getCached cache key ttl now = (none, mapDelete cache key) := by
        simp [getCached, hget]
      refine ⟨Or.inl rfl, by rw [h1], by rw [h1]; exact mapGet_mapDelete_self _ _, ?_⟩
      intro ttl2 now2
      rw [h1]; exact getCached_after_miss _ _ _ _
    | some e =>
      by_cases h : now - e.timestamp < ttl
      · left
        exact ⟨e, rfl, h, by simp [getCached, hget, h]⟩
      · right
        have h1 : getCached cache key ttl now = (none, mapDelete cache key) := by
          simp [getCached, hget, h]
        refine ⟨Or.inr ⟨e, rfl, not_lt.mp h⟩, by rw [h1], by
          rw [h1]; exact mapGet_mapDelete_self _ _, ?_⟩
        intro ttl2 now2
        rw [h1]; exact getCached_after_miss _ _ _ _
  · intro k value storedAt
    exact mapGet_mapSet _ _ _ _
  · intro k ttl2 now2
    rw [getCached_snd]
    cases h1 : (getCached cache k ttl2 now2).1 with
    | none =>
      by_cases h2 : k = key
      · subst h2
        simp [mapGet_mapDelete_self]
      · simp [h2, mapGet_mapDelete_other _ _ _ h2]
    | some v => simp
  · intro value storedAt
    rw [getCached_fst]
    simp [setCache, mapGet_mapSet]

theorem addressOnlyNote_contains : "temporarily unavailable".toList <:+: addressOnlyNote :=
  ⟨"Address verified via council API. Collection dates ".toList,
    " - showing mock data.".toList, by decide⟩

theorem liveNote_startsWith (n : Nat) : "Live data".toList <+: liveNote n := by
  refine ⟨" from Derbyshire Dales District Council. ".toList
    ++ (if n > 1 then
          "(".toList ++ Nat.toDigits 10 n ++ " addresses found - showing first)".toList
        else []), ?_⟩
  unfold liveNote
  rw [← List.append_assoc]
  congr 1

/-- C1. `getCollectionsForPostcode` is total: for every environment, postcode
and world it returns an object, and the object is on one of three tiers.
(1) The address lookup returns `null` or an empty list: the address is
`Address lookup failed`, there is no UPRN and the collections are the two mock
entries, Refuse on 2026-02-20 and Recycling on 2026-02-27.  (2) The lookup
returns a non-empty list and the fetch returns `null` or an empty list: address
and UPRN are those of the first address, the collections are the same two mock
entries and the note contains `temporarily unavailable`.  (3) Both return at
least one entry: address and UPRN are those of the first address, the
collections are the fetched list and the note starts with `Live data`. -/
theorem getCollectionsForPostcode_three_tiers (E : Env) (postcode : Str) (W : World) :
    mockCollections
        = [ CollectionEntry.mk BinType.Refuse "2026-02-20".toList,
            CollectionEntry.mk BinType.Recycling "2026-02-27".toList ]
    ∧ match (getAddressesFromCouncil E (normalizePostcode E postcode) W).1 with
      | none =>
        (getCollectionsForPostcode E postcode W).1.address = "Address lookup failed".toList
          ∧ (getCollectionsForPostcode E postcode W).1.uprn = none
          ∧ (getCollectionsForPostcode E postcode W).1.collections = mockCollections
      | some [] =>
        (getCollectionsForPostcode E postcode W).1.address = "Address lookup failed".toList
          ∧ (getCollectionsForPostcode E postcode W).1.uprn = none
          ∧ (getCollectionsForPostcode E postcode W).1.collections = mockCollections
      | some (first :: _) =>
        (getCollectionsForPostcode E postcode W).1.address = first.address
          ∧ (getCollectionsForPostcode E postcode W).1.uprn = some first.uprn
          ∧ match (getCollectionsFromCouncil E first.uprn first.uprnWithPrefix
                (getAddressesFromCouncil E (normalizePostcode E postcode) W).2).1 with
            | none =>
              (getCollectionsForPostcode E postcode W).1.collections = mockCollections
                ∧ "temporarily unavailable".toList
                    <:+: (getCollectionsForPostcode E postcode W).1.note
            | some [] =>
              (getCollectionsForPostcode E postcode W).1.collections = mockCollections
                ∧ "temporarily unavailable".toList
                    <:+: (getCollectionsForPostcode E postcode W).1.note
            | some (c :: cs) =>
              (getCollectionsForPostcode E postcode W).1.collections = c :: cs
                ∧ "Live data".toList <+: (getCollectionsForPostcode E postcode W).1.note := by
  refine ⟨rfl, ?_⟩
  unfold getCollectionsForPostcode lookupBody
  cases h : (getAddressesFromCouncil E (normalizePostcode E postcode) W).1 with
  | none => simp
  | some addresses =>
    cases addresses with
    | nil => simp
    | cons first others =>
      cases h2 : (getCollectionsFromCouncil E first.uprn first.uprnWithPrefix
          (getAddressesFromCouncil E (normalizePostcode E postcode) W).2).1 with
      | none =>
        simp only [h2]
        exact ⟨trivial, trivial, trivial, addressOnlyNote_contains⟩
      | some collections =>
        cases collections with
        | nil =>
          simp only [h2]
          exact ⟨trivial, trivial, trivial, addressOnlyNote_contains⟩
        | cons c cs =>
          simp only [h2]
          exact ⟨trivial, trivial, trivial, liveNote_startsWith _⟩

/-! ## Facts about the resolver and the fetcher -/

theorem fallbackNote_noAddresses : fallbackNote noAddressesMessage = addressFailureNote := by
  decide

theorem getAddressesFromCouncil_failure {E : Env} {postcode : Str} {W : World}
    (hmiss : (getCached W.addressCache (addressCacheKey E postcode) ADDRESS_CACHE_TTL
      (E.now W.clockReads)).1 = none)
    (hfail : replyFails (E.addressLookup W.addressLookupCalls postcode) = true) :
    (getAddressesFromCouncil E postcode W).1 = none := by
  unfold getAddressesFromCouncil
  simp only [hmiss]
  unfold addressLookupBody
  simp only
  cases hr : E.addressLookup W.addressLookupCalls postcode with
  | failed => rfl
  | response status entries =>
    rw [hr] at hfail
    cases entries with
    | none => cases hok : httpOk status <;> simp [hok]
    | some data =>
      cases hok : httpOk status with
      | false => simp [hok]
      | true =>
        simp only [replyFails, hok, Bool.not_true, Bool.false_or, List.isEmpty_iff] at hfail
        simp [hok, hfail]

theorem getCollectionsForPostcode_no_address {E : Env} {postcode : Str} {W : World}
    (h : (getAddressesFromCouncil E (normalizePostcode E postcode) W).1 = none
      ∨ (getAddressesFromCouncil E (normalizePostcode E postcode) W).1 = some []) :
    (getCollectionsForPostcode E postcode W).1
      = { postcode := normalizePostcode E postcode
          address := "Address lookup failed".toList
          uprn := none
          collections := mockCollections
          addressCount := none
          note := fallbackNote noAddressesMessage } := by
  unfold getCollectionsForPostcode lookupBody
  rcases h with h | h <;> simp only [h]

/-- C8, as amended.  When the address cache misses and the address lookup fails,
be it by a failed request, a status that is not a success, an unreadable body
or an empty mapping, `getAddressesFromCouncil` returns `null`, and the fallback
object of `getCollectionsForPostcode` has the address `Address lookup failed`,
the two mock entries and one fixed note, which does not depend on the reason
of the failure. -/
theorem address_failure_note_is_fixed (E : Env) (postcode : Str) (W : World)
    (hmiss : (getCached W.addressCache (addressCacheKey E (normalizePostcode E postcode))
      ADDRESS_CACHE_TTL (E.now W.clockReads)).1 = none)
    (hfail : replyFails
      (E.addressLookup W.addressLookupCalls (normalizePostcode E postcode)) = true) :
    (getAddressesFromCouncil E (normalizePostcode E postcode) W).1 = none
      ∧ (getCollectionsForPostcode E postcode W).1.address = "Address lookup failed".toList
      ∧ (getCollectionsForPostcode E postcode W).1.collections = mockCollections
      ∧ (getCollectionsForPostcode E postcode W).1.note = addressFailureNote := by
  have h := getAddressesFromCouncil_failure hmiss hfail
  rw [getCollectionsForPostcode_no_address (Or.inl h), fallbackNote_noAddresses]
  exact ⟨h, rfl, rfl, rfl⟩

/-- C8 as amended, at a lookup that is answered with status 503. -/
theorem address_failure_note_is_fixed_witness :
    (getCollectionsForPostcode (addressEnv 503 none) "de4 3ab".toList emptyWorld).1.note
      = addressFailureNote :=
  (address_failure_note_is_fixed (addressEnv 503 none) "de4 3ab".toList emptyWorld
    (by decide) (by decide)).2.2.2

/-- C8, counterexample.  A lookup that fails with HTTP status 500 and a lookup
that fails with an empty mapping raise different errors inside
`getAddressesFromCouncil`, and yet the two fallback objects carry the same
note. -/
theorem status_and_empty_failures_share_note :
    (addressLookupBody (addressEnv 500 none) "DE4 3AB".toList "addresses_DE43AB".toList
        emptyWorld).1 = Except.error (AddressError.councilApiError 500)
      ∧ (addressLookupBody (addressEnv 200 (some [])) "DE4 3AB".toList
          "addresses_DE43AB".toList emptyWorld).1 = Except.error AddressError.noAddressesFound
      ∧ (getCollectionsForPostcode (addressEnv 500 none) "de4 3ab".toList emptyWorld).1.note
        = (getCollectionsForPostcode (addressEnv 200 (some [])) "de4 3ab".toList
            emptyWorld).1.note := by
  refine ⟨rfl, rfl, ?_⟩
  decide!

/-- C10. After the address lists of `DE4 3AB` and then of `DE45 1QQ` have been
cached, the cache keys are in that order, the list cached last is that of
`DE45 1QQ`, and the postcode hint, also the one in the form submitted for the
UPRN of `DE45 1QQ`, is `DE4 3AB`, taken from the list cached first.  With no
cached address list the hint is empty. -/
theorem postcode_hint_comes_from_oldest_cached_list :
    addressCacheKeys
        (getAddressesFromCouncil sampleEnv "DE45 1QQ".toList
          (getAddressesFromCouncil sampleEnv "DE4 3AB".toList emptyWorld).2).2
        = ["addresses_DE43AB".toList, "addresses_DE451QQ".toList]
      ∧ (getAddressesFromCouncil sampleEnv "DE45 1QQ".toList
          (getAddressesFromCouncil sampleEnv "DE4 3AB".toList emptyWorld).2).1
        = some [Address.mk "200".toList "U200".toList "2 Low Road, Bakewell, DE45 1QQ".toList]
      ∧ postcodeForForm
          (getAddressesFromCouncil sampleEnv "DE45 1QQ".toList
            (getAddressesFromCouncil sampleEnv "DE4 3AB".toList emptyWorld).2).2
        = "DE4 3AB".toList
      ∧ (submitRequest
          (getAddressesFromCouncil sampleEnv "DE45 1QQ".toList
            (getAddressesFromCouncil sampleEnv "DE4 3AB".toList emptyWorld).2).2
          sampleFormHtml none "U200".toList).ff2924Text = "DE4 3AB".toList
      ∧ postcodeForForm emptyWorld = [] := by
  decide!

end BinCollection
